import Mathlib

/-!
Shallow embedding of the glyph module of the norad UFO library
(`src/glyph/mod.rs` and `src/error.rs`), together with proofs about the
`public.objectLibs` redistribution algorithm, `Glyph::save`'s error gates,
and the glyph filename algorithm.

Modelling conventions:
* `f32` coordinate and transform fields are modelled as `Int`; no property
  proved here depends on their numeric values.
* `Identifier`, `Color`, `Guideline` and the plist `Value`/`Dictionary`
  types live in `shared_types.rs` / the external `plist` crate, which are
  outside the embedded sources; they are modelled from the spec (marked
  below).
* `Identifier::from_uuidv4` draws a random UUID; functions that may call
  it take the generated identifier as an explicit `fresh` parameter.
* A Rust panic (the `unwrap` in `libs_to_object_libs`) is modelled by
  returning `none`.
-/

namespace Norad

/-- Modelled from the spec: an identifier is an opaque string
(`shared_types.rs`, not among the embedded sources). -/
abbrev Identifier := String

/-- Modelled from the spec: a color, kept abstract as its textual
`rrggbbaa` form (`shared_types.rs`, not among the embedded sources). -/
abbrev Color := String

/-- Modelled from the spec: a property-list value (external `plist`
crate). Only the dictionary / non-dictionary distinction matters to the
embedded code; other value kinds are collapsed into `string`. -/
inductive Value where
  | string (s : String)
  | dict (entries : List (String × Value))

/-- `Plist` is the `plist::Dictionary` alias: an ordered dictionary,
modelled as an association list in insertion order. -/
abbrev Plist := List (String × Value)

/-- `plist::Value::into_dictionary`. -/
def Value.into_dictionary : Value → Option Plist
  | .dict d => some d
  | _ => none

/-- Modelled from the spec: the reserved lib key (`shared_types.rs`). -/
def PUBLIC_OBJECT_LIBS_KEY : String := "public.objectLibs"

/-- `Dictionary::get` on the association-list model. -/
def plistGet : Plist → String → Option Value
  | [], _ => none
  | e :: rest, k => if e.1 = k then some e.2 else plistGet rest k

/-- `Dictionary::remove`, dropping the key (keys are unique in a real
dictionary; the model removes every occurrence). -/
def plistRemove : Plist → String → Plist
  | [], _ => []
  | e :: rest, k => if e.1 = k then plistRemove rest k else e :: plistRemove rest k

/-- `Dictionary::contains_key`. -/
def plistContainsKey : Plist → String → Bool
  | [], _ => false
  | e :: rest, k => if e.1 = k then true else plistContainsKey rest k

/-- `Dictionary::insert`: replace in place when the key exists, else
append (insertion-ordered dictionary). -/
def plistInsert : Plist → String → Value → Plist
  | [], k, v => [(k, v)]
  | e :: rest, k, v => if e.1 = k then (k, v) :: rest else e :: plistInsert rest k v

/-- Modelled from the spec: a guideline is positional metadata with
optional name, color, identifier and lib (`shared_types.rs`, not among
the embedded sources; its positional payload is irrelevant here). -/
structure Guideline where
  name : Option String
  color : Option Color
  identifier : Option Identifier
  lib : Option Plist

/-- `Anchor` (glyph/mod.rs). -/
structure Anchor where
  x : Int
  y : Int
  name : Option String
  color : Option Color
  identifier : Option Identifier
  lib : Option Plist

/-- `PointType` (glyph/mod.rs). -/
inductive PointType where
  | Move
  | Line
  | OffCurve
  | Curve
  | QCurve
deriving DecidableEq

/-- `ContourPoint` (glyph/mod.rs). -/
structure ContourPoint where
  x : Int
  y : Int
  typ : PointType
  smooth : Bool
  name : Option String
  identifier : Option Identifier
  lib : Option Plist

/-- `Contour` (glyph/mod.rs). -/
structure Contour where
  points : List ContourPoint
  identifier : Option Identifier
  lib : Option Plist

/-- `AffineTransform` (glyph/mod.rs); `f32` fields modelled as `Int`. -/
structure AffineTransform where
  x_scale : Int
  xy_scale : Int
  yx_scale : Int
  y_scale : Int
  x_offset : Int
  y_offset : Int

/-- `Component` (glyph/mod.rs). -/
structure Component where
  base : String
  transform : AffineTransform
  identifier : Option Identifier
  lib : Option Plist

/-- `Outline` (glyph/mod.rs). -/
structure Outline where
  components : List Component
  contours : List Contour

/-- `Advance` (glyph/mod.rs); `f32` fields modelled as `Int`. -/
structure Advance where
  height : Int
  width : Int

/-- `Image` (glyph/mod.rs); the `PathBuf` file name is modelled as a
string. -/
structure Image where
  file_name : String
  color : Option Color
  transform : AffineTransform

/-- `GlifVersion` (glyph/mod.rs). -/
inductive GlifVersion where
  | V1
  | V2
deriving DecidableEq

/-- `Glyph` (glyph/mod.rs). -/
structure Glyph where
  name : String
  format : GlifVersion
  advance : Option Advance
  codepoints : Option (List Char)
  note : Option String
  guidelines : Option (List Guideline)
  anchors : Option (List Anchor)
  outline : Option Outline
  image : Option Image
  lib : Option Plist

/-- The error variants of `Error` (error.rs) reached by the embedded
functions. -/
inductive Error where
  | DowngradeUnsupported
  | PreexistingPublicObjectLibsKey
deriving DecidableEq

/-- The `ErrorKind` variant (error.rs) reached by the embedded
functions. -/
inductive ErrorKind where
  | BadLib
deriving DecidableEq

/-- `Anchor::replace_lib`: sets a fresh identifier if none is set,
replaces the lib and returns the old one. `fresh` stands for the
`Identifier::from_uuidv4()` draw. -/
def Anchor.replace_lib (a : Anchor) (fresh : Identifier) (lib : Plist) :
    Anchor × Option Plist :=
  ({ a with identifier := some (a.identifier.getD fresh), lib := some lib }, a.lib)

/-- `Anchor::take_lib`. -/
def Anchor.take_lib (a : Anchor) : Anchor × Option Plist :=
  ({ a with lib := none }, a.lib)

/-- `Anchor::replace_identifier`. -/
def Anchor.replace_identifier (a : Anchor) (id : Identifier) :
    Anchor × Option Identifier :=
  ({ a with identifier := some id }, a.identifier)

/-- Modelled from the spec: `Guideline::replace_lib` behaves like the
other sub-objects' `replace_lib` (`shared_types.rs`, not among the
embedded sources). -/
def Guideline.replace_lib (g : Guideline) (fresh : Identifier) (lib : Plist) :
    Guideline × Option Plist :=
  ({ g with identifier := some (g.identifier.getD fresh), lib := some lib }, g.lib)

/-- `Contour::replace_lib`. -/
def Contour.replace_lib (c : Contour) (fresh : Identifier) (lib : Plist) :
    Contour × Option Plist :=
  ({ c with identifier := some (c.identifier.getD fresh), lib := some lib }, c.lib)

/-- `Contour::take_lib`. -/
def Contour.take_lib (c : Contour) : Contour × Option Plist :=
  ({ c with lib := none }, c.lib)

/-- `Contour::replace_identifier`. -/
def Contour.replace_identifier (c : Contour) (id : Identifier) :
    Contour × Option Identifier :=
  ({ c with identifier := some id }, c.identifier)

/-- `ContourPoint::replace_lib`. -/
def ContourPoint.replace_lib (p : ContourPoint) (fresh : Identifier) (lib : Plist) :
    ContourPoint × Option Plist :=
  ({ p with identifier := some (p.identifier.getD fresh), lib := some lib }, p.lib)

/-- `ContourPoint::take_lib`. -/
def ContourPoint.take_lib (p : ContourPoint) : ContourPoint × Option Plist :=
  ({ p with lib := none }, p.lib)

/-- `ContourPoint::replace_identifier`. -/
def ContourPoint.replace_identifier (p : ContourPoint) (id : Identifier) :
    ContourPoint × Option Identifier :=
  ({ p with identifier := some id }, p.identifier)

/-- `Component::replace_lib`. -/
def Component.replace_lib (c : Component) (fresh : Identifier) (lib : Plist) :
    Component × Option Plist :=
  ({ c with identifier := some (c.identifier.getD fresh), lib := some lib }, c.lib)

/-- `Component::take_lib`. -/
def Component.take_lib (c : Component) : Component × Option Plist :=
  ({ c with lib := none }, c.lib)

/-- `Component::replace_identifier`. -/
def Component.replace_identifier (c : Component) (id : Identifier) :
    Component × Option Identifier :=
  ({ c with identifier := some id }, c.identifier)

/-- `Contour::is_closed`: `self.points.first().map_or(true, |v| v.typ != PointType::Move)`. -/
def Contour.is_closed (c : Contour) : Bool :=
  match c.points.head? with
  | none => true
  | some v => v.typ ≠ PointType.Move

/-! ## `Glyph::fill_in_libs` (load-time `objectLibs` redistribution)

The Rust body is one loop per sub-object list with an early exit
(`continue 'next_key`) at the first identifier match.  Each loop is
embedded as a `replaceFirst…Lib` function that returns `some` of the
updated list at the first match and `none` when no element matches. -/

/-- The anchor loop of `fill_in_libs`. -/
def replaceFirstAnchorLib (fresh : Identifier) (key : String) (value : Plist) :
    List Anchor → Option (List Anchor)
  | [] => none
  | a :: rest =>
    if a.identifier = some key then some ((a.replace_lib fresh value).1 :: rest)
    else (replaceFirstAnchorLib fresh key value rest).map (a :: ·)

/-- The guideline loop of `fill_in_libs`. -/
def replaceFirstGuidelineLib (fresh : Identifier) (key : String) (value : Plist) :
    List Guideline → Option (List Guideline)
  | [] => none
  | g :: rest =>
    if g.identifier = some key then some ((g.replace_lib fresh value).1 :: rest)
    else (replaceFirstGuidelineLib fresh key value rest).map (g :: ·)

/-- The inner point loop of `fill_in_libs`. -/
def replaceFirstPointLib (fresh : Identifier) (key : String) (value : Plist) :
    List ContourPoint → Option (List ContourPoint)
  | [] => none
  | p :: rest =>
    if p.identifier = some key then some ((p.replace_lib fresh value).1 :: rest)
    else (replaceFirstPointLib fresh key value rest).map (p :: ·)

/-- The contour loop of `fill_in_libs`: each contour is checked, then its
own points, before moving to the next contour. -/
def replaceFirstContourLib (fresh : Identifier) (key : String) (value : Plist) :
    List Contour → Option (List Contour)
  | [] => none
  | c :: rest =>
    if c.identifier = some key then some ((c.replace_lib fresh value).1 :: rest)
    else
      match replaceFirstPointLib fresh key value c.points with
      | some ps => some ({ c with points := ps } :: rest)
      | none => (replaceFirstContourLib fresh key value rest).map (c :: ·)

/-- The component loop of `fill_in_libs`. -/
def replaceFirstComponentLib (fresh : Identifier) (key : String) (value : Plist) :
    List Component → Option (List Component)
  | [] => none
  | c :: rest =>
    if c.identifier = some key then some ((c.replace_lib fresh value).1 :: rest)
    else (replaceFirstComponentLib fresh key value rest).map (c :: ·)

/-- One `'next_key` iteration of `fill_in_libs`: attach `value` to the
first sub-object whose identifier equals `key`, searching anchors, then
guidelines, then the contours (each contour followed by its own points),
then components; a key that matches nothing leaves the glyph unchanged. -/
def applyObjectLib (fresh : Identifier) (key : String) (value : Plist)
    (g : Glyph) : Glyph :=
  match g.anchors.bind (replaceFirstAnchorLib fresh key value) with
  | some l => { g with anchors := some l }
  | none =>
    match g.guidelines.bind (replaceFirstGuidelineLib fresh key value) with
    | some l => { g with guidelines := some l }
    | none =>
      match g.outline with
      | none => g
      | some o =>
        match replaceFirstContourLib fresh key value o.contours with
        | some cs => { g with outline := some { o with contours := cs } }
        | none =>
          match replaceFirstComponentLib fresh key value o.components with
          | some ks => { g with outline := some { o with components := ks } }
          | none => g

/-- The `'next_key` loop of `fill_in_libs` over the `object_libs`
entries: each value must itself be a dictionary (else `BadLib`). -/
def processEntries (fresh : Identifier) :
    List (String × Value) → Glyph → Except ErrorKind Glyph
  | [], g => Except.ok g
  | (key, v) :: rest, g =>
    match v.into_dictionary with
    | none => Except.error ErrorKind.BadLib
    | some value => processEntries fresh rest (applyObjectLib fresh key value g)

/-- `Glyph::fill_in_libs`: remove `public.objectLibs` from the glyph
lib (it must be a dictionary, else `BadLib`) and redistribute its
entries onto the identified sub-objects. -/
def Glyph.fill_in_libs (fresh : Identifier) (g : Glyph) : Except ErrorKind Glyph :=
  match g.lib with
  | none => Except.ok g
  | some lib =>
    match plistGet lib PUBLIC_OBJECT_LIBS_KEY with
    | none => Except.ok g
    | some v =>
      match v.into_dictionary with
      | none => Except.error ErrorKind.BadLib
      | some object_libs =>
        processEntries fresh object_libs
          { g with lib := some (plistRemove lib PUBLIC_OBJECT_LIBS_KEY) }

/-! ## `Glyph::libs_to_object_libs` (write-time collection)

The Rust closure `add_lib` runs `id.unwrap()`: a sub-object carrying a
lib but no identifier makes it panic.  The panic is modelled by `none`.
The function borrows the glyph immutably (`&self`), so it can neither
synthesize identifiers nor write anything back. -/

/-- The `add_lib` closure: `object_libs.insert(id.unwrap(), lib)`. -/
def addLib (object_libs : Plist) (id : Option Identifier) (lib : Plist) :
    Option Plist :=
  match id with
  | none => none
  | some i => some (plistInsert object_libs i (Value.dict lib))

/-- The anchor loop of `libs_to_object_libs`. -/
def collectAnchorLibs : List Anchor → Plist → Option Plist
  | [], acc => some acc
  | a :: rest, acc =>
    match a.lib with
    | none => collectAnchorLibs rest acc
    | some lib =>
      match addLib acc a.identifier lib with
      | none => none
      | some acc' => collectAnchorLibs rest acc'

/-- The guideline loop of `libs_to_object_libs`. -/
def collectGuidelineLibs : List Guideline → Plist → Option Plist
  | [], acc => some acc
  | g :: rest, acc =>
    match g.lib with
    | none => collectGuidelineLibs rest acc
    | some lib =>
      match addLib acc g.identifier lib with
      | none => none
      | some acc' => collectGuidelineLibs rest acc'

/-- The inner point loop of `libs_to_object_libs`. -/
def collectPointLibs : List ContourPoint → Plist → Option Plist
  | [], acc => some acc
  | p :: rest, acc =>
    match p.lib with
    | none => collectPointLibs rest acc
    | some lib =>
      match addLib acc p.identifier lib with
      | none => none
      | some acc' => collectPointLibs rest acc'

/-- The contour loop of `libs_to_object_libs`: each contour's own lib,
then its points' libs. -/
def collectContourLibs : List Contour → Plist → Option Plist
  | [], acc => some acc
  | c :: rest, acc =>
    match
      (match c.lib with
       | none => some acc
       | some lib => addLib acc c.identifier lib) with
    | none => none
    | some acc' =>
      match collectPointLibs c.points acc' with
      | none => none
      | some acc'' => collectContourLibs rest acc''

/-- The component loop of `libs_to_object_libs`. -/
def collectComponentLibs : List Component → Plist → Option Plist
  | [], acc => some acc
  | c :: rest, acc =>
    match c.lib with
    | none => collectComponentLibs rest acc
    | some lib =>
      match addLib acc c.identifier lib with
      | none => none
      | some acc' => collectComponentLibs rest acc'

/-- `Glyph::libs_to_object_libs`: collect every sub-object lib into a
fresh dictionary keyed by the object's identifier, in the order anchors,
guidelines, contours (each followed by its points), components.  `none`
models the `unwrap` panic on a lib-bearing sub-object without an
identifier. -/
def Glyph.libs_to_object_libs (g : Glyph) : Option Plist :=
  (collectAnchorLibs (g.anchors.getD []) []).bind fun acc =>
    (collectGuidelineLibs (g.guidelines.getD []) acc).bind fun acc =>
      (match g.outline with
        | none => some acc
        | some o =>
          (collectContourLibs o.contours acc).bind fun acc =>
            collectComponentLibs o.components acc)

/-! ## `Glyph::save` -/

/-- `Glyph::save`, modelled as a pure function: the two error gates from
the source, then the serialization-and-write step.  The glyph is
borrowed immutably (`&self`), so it is unchanged by construction; the
missing serializer (`encode_xml`, in `serialize.rs`) is an abstract
parameter, and an `ok` result carries the bytes written to the file —
an error result means nothing was written. -/
def Glyph.save (encode : Glyph → Except Error (List Nat)) (g : Glyph) :
    Except Error (List Nat) :=
  if g.format ≠ GlifVersion.V2 then
    Except.error Error.DowngradeUnsupported
  else if (g.lib.map (fun lib => plistContainsKey lib PUBLIC_OBJECT_LIBS_KEY)).getD false then
    Except.error Error.PreexistingPublicObjectLibsKey
  else
    encode g

/-! ## `default_file_name_for_glyph_name` -/

/-- The `SPECIAL_ILLEGAL` character table. -/
def SPECIAL_ILLEGAL : List Char :=
  ['\\', '*', '+', '/', ':', '<', '>', '?', '[', ']', '|']

/-- One arm of the `match` inside the escaping loop: what gets pushed for
character `c` when the output accumulated so far is empty (`resultEmpty`). -/
def escapeChar (resultEmpty : Bool) (c : Char) : List Char :=
  if c = '.' ∧ resultEmpty then ['_']
  else if c.val < 32 ∨ c.val = 0x7f ∨ SPECIAL_ILLEGAL.contains c then ['_']
  else if c.isUpper then [c, '_']
  else [c]

/-- The escaping loop of `fn_impl`.  Every arm pushes at least one
character, so `result.is_empty()` holds exactly at the first character. -/
def escapeName : List Char → Bool → List Char
  | [], _ => []
  | c :: cs, resultEmpty => escapeChar resultEmpty c ++ escapeName cs false

/-- UTF-8 byte length of a character list (Rust `str::len`). -/
def utf8Len (cs : List Char) : Nat := (cs.map Char.utf8Size).sum

/-- The truncation step of `fn_impl`: starting at byte offset `b` and
walking down to the nearest character boundary is the same as keeping
the longest prefix of whole characters whose UTF-8 size fits in `b`. -/
def takeBytes : List Char → Nat → List Char
  | [], _ => []
  | c :: cs, b => if c.utf8Size ≤ b then c :: takeBytes cs (b - c.utf8Size) else []

/-- `.glif`, the `SUFFIX` constant. -/
def glifSuffix : List Char := ['.', 'g', 'l', 'i', 'f']

/-- `fn_impl` inside `default_file_name_for_glyph_name`, over the
name's character list (`MAX_LEN = 255` inlined). -/
def fnImpl (name : List Char) : List Char :=
  (if utf8Len (escapeName name true) + utf8Len glifSuffix > 255 then
      takeBytes (escapeName name true) (255 - utf8Len glifSuffix)
    else escapeName name true) ++ glifSuffix

/-- `default_file_name_for_glyph_name` (glyph/mod.rs). -/
def default_file_name_for_glyph_name (name : String) : String :=
  String.mk (fnImpl name.data)

/-! ## Views of a glyph's sub-objects

`fill_in_libs` and `libs_to_object_libs` traverse the sub-objects in the
same fixed order: anchors, guidelines, contours (each contour followed
by its own points), components.  `libSlots` lists each sub-object's
`(identifier, lib)` pair in exactly that order. -/

/-- The `(identifier, lib)` pair of one sub-object. -/
abbrev LibSlot := Option Identifier × Option Plist

/-- Slot of an anchor. -/
def anchorSlot (a : Anchor) : LibSlot := (a.identifier, a.lib)

/-- Slot of a guideline. -/
def guidelineSlot (g : Guideline) : LibSlot := (g.identifier, g.lib)

/-- Slot of a contour point. -/
def pointSlot (p : ContourPoint) : LibSlot := (p.identifier, p.lib)

/-- Slot of a component. -/
def componentSlot (c : Component) : LibSlot := (c.identifier, c.lib)

/-- Slots contributed by one contour: the contour itself, then its own
points. -/
def contourSlots (c : Contour) : List LibSlot :=
  (c.identifier, c.lib) :: c.points.map pointSlot

/-- All sub-object slots of a glyph, in traversal order. -/
def Glyph.libSlots (g : Glyph) : List LibSlot :=
  (g.anchors.getD []).map anchorSlot
    ++ (g.guidelines.getD []).map guidelineSlot
    ++ (match g.outline with
        | none => []
        | some o => (o.contours.map contourSlots).flatten
            ++ o.components.map componentSlot)

/-- Replace the lib of the first slot whose identifier equals `key`
(the specification-level description of one redistribution step). -/
def updateFirst (key : String) (value : Plist) : List LibSlot → List LibSlot
  | [] => []
  | s :: rest =>
    if s.1 = some key then (s.1, some value) :: rest
    else s :: updateFirst key value rest

/-- Some sub-object of `g` has identifier `key`. -/
def GlyphMatches (g : Glyph) (key : String) : Prop :=
  ∃ s ∈ g.libSlots, s.1 = some key

/-- Every sub-object of `g` that carries a lib also carries an
identifier (the condition under which write-time collection cannot hit
the `unwrap` panic). -/
def Glyph.libsHaveIds (g : Glyph) : Bool :=
  ((g.anchors.getD []).all fun a => !a.lib.isSome || a.identifier.isSome) &&
  ((g.guidelines.getD []).all fun x => !x.lib.isSome || x.identifier.isSome) &&
  (match g.outline with
   | none => true
   | some o =>
     (o.contours.all fun c => (!c.lib.isSome || c.identifier.isSome) &&
        (c.points.all fun p => !p.lib.isSome || p.identifier.isSome)) &&
     (o.components.all fun c => !c.lib.isSome || c.identifier.isSome))

/-! ## Concrete fixtures used by the scenario theorems and witnesses -/

/-- `{ "note": "hi" }`. -/
def noteHi : Plist := [("note", Value.string "hi")]

/-- An otherwise empty V2 glyph. -/
def baseGlyph : Glyph :=
  { name := "a", format := GlifVersion.V2, advance := none, codepoints := none,
    note := none, guidelines := none, anchors := none, outline := none,
    image := none, lib := none }

/-- A contour with identifier `id-1` and no lib. -/
def cId1 : Contour := { points := [], identifier := some "id-1", lib := none }

/-- Scenario *D*: a glyph whose lib holds
`public.objectLibs = { "id-1": { "note": "hi" } }` and whose outline has
a contour with identifier `id-1`. -/
def gScenD : Glyph :=
  { baseGlyph with
    outline := some { components := [], contours := [cId1] },
    lib := some [(PUBLIC_OBJECT_LIBS_KEY, Value.dict [("id-1", Value.dict noteHi)])] }

/-- Scenario *D* after redistribution: the contour owns the lib and the
glyph lib is an empty dictionary. -/
def gScenDAfter : Glyph :=
  { gScenD with
    outline := some { components := [], contours := [{ cId1 with lib := some noteHi }] },
    lib := some [] }

/-- A point with identifier `k`. -/
def pMatch : ContourPoint :=
  { x := 0, y := 0, typ := PointType.Line, smooth := false, name := none,
    identifier := some "k", lib := none }

/-- A contour (no identifier) whose single point has identifier `k`. -/
def cWithPoint : Contour := { points := [pMatch], identifier := none, lib := none }

/-- A later contour whose own identifier is `k`. -/
def cMatch : Contour := { points := [], identifier := some "k", lib := none }

/-- A glyph where identifier `k` occurs both on a point of the first
contour and on the second contour itself, with an `objectLibs` entry for
`k`. -/
def gOrder : Glyph :=
  { baseGlyph with
    outline := some { components := [], contours := [cWithPoint, cMatch] },
    lib := some [(PUBLIC_OBJECT_LIBS_KEY, Value.dict [("k", Value.dict noteHi)])] }

/-- `gOrder` after redistribution: the point of the first contour
received the lib; the second contour (whose identifier is `k`) did not. -/
def gOrderAfter : Glyph :=
  { gOrder with
    outline := some
      { components := [],
        contours := [{ cWithPoint with points := [{ pMatch with lib := some noteHi }] },
                     cMatch] },
    lib := some [] }

/-- An anchor that carries a lib but no identifier. -/
def aNoId : Anchor :=
  { x := 0, y := 0, name := none, color := none, identifier := none,
    lib := some [] }

/-- A glyph with a lib-bearing, identifier-less anchor: collecting its
object libs hits the `unwrap` panic. -/
def gNoId : Glyph := { baseGlyph with anchors := some [aNoId] }

/-- A V1 glyph (for the downgrade gate). -/
def gV1 : Glyph := { baseGlyph with format := GlifVersion.V1 }

/-- A V2 glyph whose lib already holds `public.objectLibs`. -/
def gV2k : Glyph :=
  { baseGlyph with lib := some [(PUBLIC_OBJECT_LIBS_KEY, Value.dict [])] }

/-- A trivial stand-in for the serializer parameter of `save`. -/
def encStub : Glyph → Except Error (List Nat) := fun _ => Except.ok []

/-- An anchor with identifier `a1` and no lib. -/
def aId : Anchor :=
  { x := 0, y := 0, name := none, color := none, identifier := some "a1",
    lib := none }

/-- A glyph whose `objectLibs` holds one orphan entry `x` matching no
sub-object. -/
def gOrphan : Glyph :=
  { baseGlyph with
    anchors := some [aId],
    lib := some [(PUBLIC_OBJECT_LIBS_KEY, Value.dict [("x", Value.dict noteHi)])] }

/-! ## Dictionary lemmas -/

theorem plistContainsKey_plistRemove (l : Plist) (k : String) :
    plistContainsKey (plistRemove l k) k = false := by
  induction l with
  | nil => rfl
  | cons e rest ih =>
    by_cases h : e.1 = k
    · simp [plistRemove, h, ih]
    · simp [plistRemove, plistContainsKey, h, ih]

theorem plistContainsKey_of_get_none {l : Plist} {k : String}
    (h : plistGet l k = none) : plistContainsKey l k = false := by
  induction l with
  | nil => rfl
  | cons e rest ih =>
    by_cases he : e.1 = k
    · simp [plistGet, he] at h
    · simp [plistGet, he] at h
      simp [plistContainsKey, he, ih h]

/-! ## UTF-8 length and truncation lemmas -/

theorem utf8Len_append (xs ys : List Char) :
    utf8Len (xs ++ ys) = utf8Len xs + utf8Len ys := by
  simp [utf8Len]

theorem utf8Len_takeBytes_le (cs : List Char) (b : Nat) :
    utf8Len (takeBytes cs b) ≤ b := by
  induction cs generalizing b with
  | nil => simp [takeBytes, utf8Len]
  | cons c rest ih =>
    by_cases h : c.utf8Size ≤ b
    · have := ih (b - c.utf8Size)
      simp only [utf8Len] at this
      simp only [takeBytes, if_pos h, utf8Len, List.map_cons, List.sum_cons]
      omega
    · simp [takeBytes, if_neg h, utf8Len]

theorem takeBytes_leading (cs : List Char) (b : Nat) :
    ∃ rest, cs = takeBytes cs b ++ rest := by
  induction cs generalizing b with
  | nil => exact ⟨[], rfl⟩
  | cons c rest ih =>
    by_cases h : c.utf8Size ≤ b
    · obtain ⟨r, hr⟩ := ih (b - c.utf8Size)
      exact ⟨r, by simp [takeBytes, if_pos h]; exact hr⟩
    · exact ⟨c :: rest, by simp [takeBytes, if_neg h]⟩

/-! ## `updateFirst` lemmas -/

theorem updateFirst_of_no_match {k : String} {v : Plist} {l : List LibSlot}
    (h : ∀ s ∈ l, s.1 ≠ some k) : updateFirst k v l = l := by
  induction l with
  | nil => rfl
  | cons s rest ih =>
    have hs := h s (by simp)
    simp only [updateFirst, if_neg hs]
    rw [ih fun t ht => h t (by simp [ht])]

theorem updateFirst_append_of_no_match {k : String} {v : Plist}
    {xs : List LibSlot} (ys : List LibSlot) (h : ∀ s ∈ xs, s.1 ≠ some k) :
    updateFirst k v (xs ++ ys) = xs ++ updateFirst k v ys := by
  induction xs with
  | nil => rfl
  | cons s rest ih =>
    have hs := h s (by simp)
    simp only [List.cons_append, updateFirst, if_neg hs]
    exact congrArg (List.cons s) (ih fun t ht => h t (by simp [ht]))

theorem updateFirst_append_of_match {k : String} {v : Plist}
    {xs : List LibSlot} (ys : List LibSlot) (h : ∃ s ∈ xs, s.1 = some k) :
    updateFirst k v (xs ++ ys) = updateFirst k v xs ++ ys := by
  induction xs with
  | nil => simp at h
  | cons s rest ih =>
    by_cases hs : s.1 = some k
    · simp [updateFirst, if_pos hs]
    · obtain ⟨t, ht, htk⟩ := h
      rcases List.mem_cons.mp ht with rfl | htr
      · exact absurd htk hs
      · simp only [List.cons_append, updateFirst, if_neg hs]
        exact congrArg (List.cons s) (ih ⟨t, htr, htk⟩)

theorem updateFirst_map_fst (k : String) (v : Plist) (l : List LibSlot) :
    (updateFirst k v l).map Prod.fst = l.map Prod.fst := by
  induction l with
  | nil => rfl
  | cons s rest ih =>
    by_cases hs : s.1 = some k
    · simp [updateFirst, if_pos hs]
    · simp [updateFirst, if_neg hs, ih]

/-! ## The `fill_in_libs` search loops, slot by slot -/

theorem replaceFirstAnchorLib_none {fresh : Identifier} {k : String} {v : Plist}
    {l : List Anchor} (h : replaceFirstAnchorLib fresh k v l = none) :
    ∀ a ∈ l, a.identifier ≠ some k := by
  induction l with
  | nil => simp
  | cons a rest ih =>
    by_cases ha : a.identifier = some k
    · simp [replaceFirstAnchorLib, if_pos ha] at h
    · simp only [replaceFirstAnchorLib, if_neg ha] at h
      cases hr : replaceFirstAnchorLib fresh k v rest with
      | some l0 => rw [hr] at h; simp at h
      | none =>
        intro b hb
        rcases List.mem_cons.mp hb with rfl | hbr
        · exact ha
        · exact ih hr b hbr

theorem replaceFirstAnchorLib_some_match {fresh : Identifier} {k : String}
    {v : Plist} {l l' : List Anchor}
    (h : replaceFirstAnchorLib fresh k v l = some l') :
    ∃ s ∈ l.map anchorSlot, s.1 = some k := by
  induction l generalizing l' with
  | nil => simp [replaceFirstAnchorLib] at h
  | cons a rest ih =>
    by_cases ha : a.identifier = some k
    · exact ⟨anchorSlot a, by simp, ha⟩
    · simp only [replaceFirstAnchorLib, if_neg ha] at h
      cases hr : replaceFirstAnchorLib fresh k v rest with
      | none => rw [hr] at h; simp at h
      | some l0 =>
        obtain ⟨s, hs, hsk⟩ := ih hr
        exact ⟨s, by simp only [List.map_cons]; exact List.mem_cons_of_mem _ hs, hsk⟩

theorem replaceFirstAnchorLib_some_slots {fresh : Identifier} {k : String}
    {v : Plist} {l l' : List Anchor}
    (h : replaceFirstAnchorLib fresh k v l = some l') :
    l'.map anchorSlot = updateFirst k v (l.map anchorSlot) := by
  induction l generalizing l' with
  | nil => simp [replaceFirstAnchorLib] at h
  | cons a rest ih =>
    by_cases ha : a.identifier = some k
    · simp only [replaceFirstAnchorLib, if_pos ha, Option.some.injEq] at h
      subst h
      simp only [List.map_cons, updateFirst]
      rw [if_pos (show (anchorSlot a).1 = some k from ha)]
      congr 1
      simp [anchorSlot, Anchor.replace_lib, ha]
    · simp only [replaceFirstAnchorLib, if_neg ha] at h
      cases hr : replaceFirstAnchorLib fresh k v rest with
      | none => rw [hr] at h; simp at h
      | some l0 =>
        rw [hr] at h
        simp only [Option.map_some', Option.some.injEq] at h
        subst h
        simp only [List.map_cons, updateFirst]
        rw [if_neg (show ¬(anchorSlot a).1 = some k from ha)]
        exact congrArg (List.cons (anchorSlot a)) (ih hr)

theorem replaceFirstGuidelineLib_none {fresh : Identifier} {k : String} {v : Plist}
    {l : List Guideline} (h : replaceFirstGuidelineLib fresh k v l = none) :
    ∀ a ∈ l, a.identifier ≠ some k := by
  induction l with
  | nil => simp
  | cons a rest ih =>
    by_cases ha : a.identifier = some k
    · simp [replaceFirstGuidelineLib, if_pos ha] at h
    · simp only [replaceFirstGuidelineLib, if_neg ha] at h
      cases hr : replaceFirstGuidelineLib fresh k v rest with
      | some l0 => rw [hr] at h; simp at h
      | none =>
        intro b hb
        rcases List.mem_cons.mp hb with rfl | hbr
        · exact ha
        · exact ih hr b hbr

theorem replaceFirstGuidelineLib_some_match {fresh : Identifier} {k : String}
    {v : Plist} {l l' : List Guideline}
    (h : replaceFirstGuidelineLib fresh k v l = some l') :
    ∃ s ∈ l.map guidelineSlot, s.1 = some k := by
  induction l generalizing l' with
  | nil => simp [replaceFirstGuidelineLib] at h
  | cons a rest ih =>
    by_cases ha : a.identifier = some k
    · exact ⟨guidelineSlot a, by simp, ha⟩
    · simp only [replaceFirstGuidelineLib, if_neg ha] at h
      cases hr : replaceFirstGuidelineLib fresh k v rest with
      | none => rw [hr] at h; simp at h
      | some l0 =>
        obtain ⟨s, hs, hsk⟩ := ih hr
        exact ⟨s, by simp only [List.map_cons]; exact List.mem_cons_of_mem _ hs, hsk⟩

theorem replaceFirstGuidelineLib_some_slots {fresh : Identifier} {k : String}
    {v : Plist} {l l' : List Guideline}
    (h : replaceFirstGuidelineLib fresh k v l = some l') :
    l'.map guidelineSlot = updateFirst k v (l.map guidelineSlot) := by
  induction l generalizing l' with
  | nil => simp [replaceFirstGuidelineLib] at h
  | cons a rest ih =>
    by_cases ha : a.identifier = some k
    · simp only [replaceFirstGuidelineLib, if_pos ha, Option.some.injEq] at h
      subst h
      simp only [List.map_cons, updateFirst]
      rw [if_pos (show (guidelineSlot a).1 = some k from ha)]
      congr 1
      simp [guidelineSlot, Guideline.replace_lib, ha]
    · simp only [replaceFirstGuidelineLib, if_neg ha] at h
      cases hr : replaceFirstGuidelineLib fresh k v rest with
      | none => rw [hr] at h; simp at h
      | some l0 =>
        rw [hr] at h
        simp only [Option.map_some', Option.some.injEq] at h
        subst h
        simp only [List.map_cons, updateFirst]
        rw [if_neg (show ¬(guidelineSlot a).1 = some k from ha)]
        exact congrArg (List.cons (guidelineSlot a)) (ih hr)


theorem replaceFirstPointLib_none {fresh : Identifier} {k : String} {v : Plist}
    {l : List ContourPoint} (h : replaceFirstPointLib fresh k v l = none) :
    ∀ a ∈ l, a.identifier ≠ some k := by
  induction l with
  | nil => simp
  | cons a rest ih =>
    by_cases ha : a.identifier = some k
    · simp [replaceFirstPointLib, if_pos ha] at h
    · simp only [replaceFirstPointLib, if_neg ha] at h
      cases hr : replaceFirstPointLib fresh k v rest with
      | some l0 => rw [hr] at h; simp at h
      | none =>
        intro b hb
        rcases List.mem_cons.mp hb with rfl | hbr
        · exact ha
        · exact ih hr b hbr

theorem replaceFirstPointLib_some_match {fresh : Identifier} {k : String}
    {v : Plist} {l l' : List ContourPoint}
    (h : replaceFirstPointLib fresh k v l = some l') :
    ∃ s ∈ l.map pointSlot, s.1 = some k := by
  induction l generalizing l' with
  | nil => simp [replaceFirstPointLib] at h
  | cons a rest ih =>
    by_cases ha : a.identifier = some k
    · exact ⟨pointSlot a, by simp, ha⟩
    · simp only [replaceFirstPointLib, if_neg ha] at h
      cases hr : replaceFirstPointLib fresh k v rest with
      | none => rw [hr] at h; simp at h
      | some l0 =>
        obtain ⟨s, hs, hsk⟩ := ih hr
        exact ⟨s, by simp only [List.map_cons]; exact List.mem_cons_of_mem _ hs, hsk⟩

theorem replaceFirstPointLib_some_slots {fresh : Identifier} {k : String}
    {v : Plist} {l l' : List ContourPoint}
    (h : replaceFirstPointLib fresh k v l = some l') :
    l'.map pointSlot = updateFirst k v (l.map pointSlot) := by
  induction l generalizing l' with
  | nil => simp [replaceFirstPointLib] at h
  | cons a rest ih =>
    by_cases ha : a.identifier = some k
    · simp only [replaceFirstPointLib, if_pos ha, Option.some.injEq] at h
      subst h
      simp only [List.map_cons, updateFirst]
      rw [if_pos (show (pointSlot a).1 = some k from ha)]
      congr 1
      simp [pointSlot, ContourPoint.replace_lib, ha]
    · simp only [replaceFirstPointLib, if_neg ha] at h
      cases hr : replaceFirstPointLib fresh k v rest with
      | none => rw [hr] at h; simp at h
      | some l0 =>
        rw [hr] at h
        simp only [Option.map_some', Option.some.injEq] at h
        subst h
        simp only [List.map_cons, updateFirst]
        rw [if_neg (show ¬(pointSlot a).1 = some k from ha)]
        exact congrArg (List.cons (pointSlot a)) (ih hr)


theorem replaceFirstComponentLib_none {fresh : Identifier} {k : String} {v : Plist}
    {l : List Component} (h : replaceFirstComponentLib fresh k v l = none) :
    ∀ a ∈ l, a.identifier ≠ some k := by
  induction l with
  | nil => simp
  | cons a rest ih =>
    by_cases ha : a.identifier = some k
    · simp [replaceFirstComponentLib, if_pos ha] at h
    · simp only [replaceFirstComponentLib, if_neg ha] at h
      cases hr : replaceFirstComponentLib fresh k v rest with
      | some l0 => rw [hr] at h; simp at h
      | none =>
        intro b hb
        rcases List.mem_cons.mp hb with rfl | hbr
        · exact ha
        · exact ih hr b hbr

theorem replaceFirstComponentLib_some_match {fresh : Identifier} {k : String}
    {v : Plist} {l l' : List Component}
    (h : replaceFirstComponentLib fresh k v l = some l') :
    ∃ s ∈ l.map componentSlot, s.1 = some k := by
  induction l generalizing l' with
  | nil => simp [replaceFirstComponentLib] at h
  | cons a rest ih =>
    by_cases ha : a.identifier = some k
    · exact ⟨componentSlot a, by simp, ha⟩
    · simp only [replaceFirstComponentLib, if_neg ha] at h
      cases hr : replaceFirstComponentLib fresh k v rest with
      | none => rw [hr] at h; simp at h
      | some l0 =>
        obtain ⟨s, hs, hsk⟩ := ih hr
        exact ⟨s, by simp only [List.map_cons]; exact List.mem_cons_of_mem _ hs, hsk⟩

theorem replaceFirstComponentLib_some_slots {fresh : Identifier} {k : String}
    {v : Plist} {l l' : List Component}
    (h : replaceFirstComponentLib fresh k v l = some l') :
    l'.map componentSlot = updateFirst k v (l.map componentSlot) := by
  induction l generalizing l' with
  | nil => simp [replaceFirstComponentLib] at h
  | cons a rest ih =>
    by_cases ha : a.identifier = some k
    · simp only [replaceFirstComponentLib, if_pos ha, Option.some.injEq] at h
      subst h
      simp only [List.map_cons, updateFirst]
      rw [if_pos (show (componentSlot a).1 = some k from ha)]
      congr 1
      simp [componentSlot, Component.replace_lib, ha]
    · simp only [replaceFirstComponentLib, if_neg ha] at h
      cases hr : replaceFirstComponentLib fresh k v rest with
      | none => rw [hr] at h; simp at h
      | some l0 =>
        rw [hr] at h
        simp only [Option.map_some', Option.some.injEq] at h
        subst h
        simp only [List.map_cons, updateFirst]
        rw [if_neg (show ¬(componentSlot a).1 = some k from ha)]
        exact congrArg (List.cons (componentSlot a)) (ih hr)

theorem replaceFirstContourLib_none {fresh : Identifier} {k : String} {v : Plist}
    {l : List Contour} (h : replaceFirstContourLib fresh k v l = none) :
    ∀ s ∈ (l.map contourSlots).flatten, s.1 ≠ some k := by
  induction l with
  | nil => simp
  | cons c rest ih =>
    by_cases hc : c.identifier = some k
    · simp [replaceFirstContourLib, if_pos hc] at h
    · simp only [replaceFirstContourLib, if_neg hc] at h
      cases hp : replaceFirstPointLib fresh k v c.points with
      | some ps => rw [hp] at h; simp at h
      | none =>
        rw [hp] at h
        cases hr : replaceFirstContourLib fresh k v rest with
        | some l0 => rw [hr] at h; simp at h
        | none =>
          intro s hs
          simp only [List.map_cons, List.flatten_cons, List.mem_append,
            contourSlots, List.mem_cons] at hs
          rcases hs with (rfl | hpt) | hrest
          · exact hc
          · obtain ⟨p, hp0, rfl⟩ := List.mem_map.mp hpt
            exact replaceFirstPointLib_none hp p hp0
          · exact ih hr s hrest

theorem replaceFirstContourLib_some_match {fresh : Identifier} {k : String}
    {v : Plist} {l l' : List Contour}
    (h : replaceFirstContourLib fresh k v l = some l') :
    ∃ s ∈ (l.map contourSlots).flatten, s.1 = some k := by
  induction l generalizing l' with
  | nil => simp [replaceFirstContourLib] at h
  | cons c rest ih =>
    by_cases hc : c.identifier = some k
    · exact ⟨(c.identifier, c.lib), by simp [contourSlots], hc⟩
    · simp only [replaceFirstContourLib, if_neg hc] at h
      cases hp : replaceFirstPointLib fresh k v c.points with
      | some ps =>
        obtain ⟨s, hs, hsk⟩ := replaceFirstPointLib_some_match hp
        exact ⟨s, by
          simp only [List.map_cons, List.flatten_cons, List.mem_append, contourSlots,
            List.mem_cons]
          exact Or.inl (Or.inr hs), hsk⟩
      | none =>
        rw [hp] at h
        cases hr : replaceFirstContourLib fresh k v rest with
        | none => rw [hr] at h; simp at h
        | some l0 =>
          obtain ⟨s, hs, hsk⟩ := ih hr
          exact ⟨s, by
            simp only [List.map_cons, List.flatten_cons, List.mem_append]
            exact Or.inr hs, hsk⟩

theorem replaceFirstContourLib_some_slots {fresh : Identifier} {k : String}
    {v : Plist} {l l' : List Contour}
    (h : replaceFirstContourLib fresh k v l = some l') :
    (l'.map contourSlots).flatten = updateFirst k v ((l.map contourSlots).flatten) := by
  induction l generalizing l' with
  | nil => simp [replaceFirstContourLib] at h
  | cons c rest ih =>
    by_cases hc : c.identifier = some k
    · simp only [replaceFirstContourLib, if_pos hc, Option.some.injEq] at h
      subst h
      simp only [List.map_cons, List.flatten_cons, contourSlots, Contour.replace_lib,
        List.cons_append, updateFirst]
      rw [if_pos (show (c.identifier, c.lib).1 = some k from hc)]
      simp [hc]
    · simp only [replaceFirstContourLib, if_neg hc] at h
      cases hp : replaceFirstPointLib fresh k v c.points with
      | some ps =>
        rw [hp] at h
        simp only [Option.some.injEq] at h
        subst h
        simp only [List.map_cons, List.flatten_cons, contourSlots, List.cons_append,
          updateFirst]
        rw [if_neg (show ¬(c.identifier, c.lib).1 = some k from hc)]
        refine congrArg (List.cons (c.identifier, c.lib)) ?_
        show List.map pointSlot ps ++ (List.map contourSlots rest).flatten
            = updateFirst k v
                (List.map pointSlot c.points ++ (List.map contourSlots rest).flatten)
        rw [updateFirst_append_of_match _ (replaceFirstPointLib_some_match hp),
          replaceFirstPointLib_some_slots hp]
      | none =>
        rw [hp] at h
        cases hr : replaceFirstContourLib fresh k v rest with
        | none => rw [hr] at h; simp at h
        | some l0 =>
          rw [hr] at h
          simp only [Option.map_some', Option.some.injEq] at h
          subst h
          simp only [List.map_cons, List.flatten_cons]
          rw [updateFirst_append_of_no_match _ ?noMatch, ih hr]
          case noMatch =>
            intro s hs
            simp only [contourSlots, List.mem_cons] at hs
            rcases hs with rfl | hpt
            · exact hc
            · obtain ⟨p, hp0, rfl⟩ := List.mem_map.mp hpt
              exact replaceFirstPointLib_none hp p hp0

/-! ## `applyObjectLib` case equations -/

theorem applyObjectLib_eq_anchors {fresh : Identifier} {k : String} {v : Plist}
    {g : Glyph} {l : List Anchor}
    (hA : g.anchors.bind (replaceFirstAnchorLib fresh k v) = some l) :
    applyObjectLib fresh k v g = { g with anchors := some l } := by
  unfold applyObjectLib
  rw [hA]

theorem applyObjectLib_eq_guidelines {fresh : Identifier} {k : String} {v : Plist}
    {g : Glyph} {l : List Guideline}
    (hA : g.anchors.bind (replaceFirstAnchorLib fresh k v) = none)
    (hG : g.guidelines.bind (replaceFirstGuidelineLib fresh k v) = some l) :
    applyObjectLib fresh k v g = { g with guidelines := some l } := by
  unfold applyObjectLib
  rw [hA, hG]

theorem applyObjectLib_eq_contours {fresh : Identifier} {k : String} {v : Plist}
    {g : Glyph} {o : Outline} {cs : List Contour}
    (hA : g.anchors.bind (replaceFirstAnchorLib fresh k v) = none)
    (hG : g.guidelines.bind (replaceFirstGuidelineLib fresh k v) = none)
    (ho : g.outline = some o)
    (hc : replaceFirstContourLib fresh k v o.contours = some cs) :
    applyObjectLib fresh k v g = { g with outline := some { o with contours := cs } } := by
  unfold applyObjectLib
  rw [hA, hG, ho]
  simp only [hc]

theorem applyObjectLib_eq_components {fresh : Identifier} {k : String} {v : Plist}
    {g : Glyph} {o : Outline} {ks : List Component}
    (hA : g.anchors.bind (replaceFirstAnchorLib fresh k v) = none)
    (hG : g.guidelines.bind (replaceFirstGuidelineLib fresh k v) = none)
    (ho : g.outline = some o)
    (hc : replaceFirstContourLib fresh k v o.contours = none)
    (hk : replaceFirstComponentLib fresh k v o.components = some ks) :
    applyObjectLib fresh k v g
      = { g with outline := some { o with components := ks } } := by
  unfold applyObjectLib
  rw [hA, hG, ho]
  simp only [hc, hk]

theorem applyObjectLib_eq_self_of_no_outline {fresh : Identifier} {k : String}
    {v : Plist} {g : Glyph}
    (hA : g.anchors.bind (replaceFirstAnchorLib fresh k v) = none)
    (hG : g.guidelines.bind (replaceFirstGuidelineLib fresh k v) = none)
    (ho : g.outline = none) :
    applyObjectLib fresh k v g = g := by
  unfold applyObjectLib
  rw [hA, hG, ho]

theorem applyObjectLib_eq_self_of_outline {fresh : Identifier} {k : String}
    {v : Plist} {g : Glyph} {o : Outline}
    (hA : g.anchors.bind (replaceFirstAnchorLib fresh k v) = none)
    (hG : g.guidelines.bind (replaceFirstGuidelineLib fresh k v) = none)
    (ho : g.outline = some o)
    (hc : replaceFirstContourLib fresh k v o.contours = none)
    (hk : replaceFirstComponentLib fresh k v o.components = none) :
    applyObjectLib fresh k v g = g := by
  unfold applyObjectLib
  rw [hA, hG, ho]
  simp only [hc, hk]

/-- One redistribution step, viewed on the slot list: `applyObjectLib`
replaces the lib of the first sub-object (in traversal order) whose
identifier equals `key`, and leaves everything else alone. -/
theorem applyObjectLib_libSlots (fresh : Identifier) (k : String) (v : Plist)
    (g : Glyph) :
    (applyObjectLib fresh k v g).libSlots = updateFirst k v g.libSlots := by
  cases hA : g.anchors.bind (replaceFirstAnchorLib fresh k v) with
  | some l =>
    rcases Option.bind_eq_some.mp hA with ⟨as, hga, hra⟩
    rw [applyObjectLib_eq_anchors hA]
    simp only [Glyph.libSlots, hga, Option.getD_some, List.append_assoc]
    rw [updateFirst_append_of_match _ (replaceFirstAnchorLib_some_match hra),
      replaceFirstAnchorLib_some_slots hra]
  | none =>
    have hAnm : ∀ s ∈ (g.anchors.getD []).map anchorSlot, s.1 ≠ some k := by
      cases hga : g.anchors with
      | none => simp
      | some as =>
        rw [hga] at hA
        simp only [Option.some_bind] at hA
        simp only [Option.getD_some]
        intro s hs
        obtain ⟨a, ha0, rfl⟩ := List.mem_map.mp hs
        exact replaceFirstAnchorLib_none hA a ha0
    cases hG : g.guidelines.bind (replaceFirstGuidelineLib fresh k v) with
    | some l =>
      rcases Option.bind_eq_some.mp hG with ⟨gs, hgg, hrg⟩
      rw [applyObjectLib_eq_guidelines hA hG]
      simp only [Glyph.libSlots, hgg, Option.getD_some, List.append_assoc]
      rw [updateFirst_append_of_no_match _ hAnm,
        updateFirst_append_of_match _ (replaceFirstGuidelineLib_some_match hrg),
        replaceFirstGuidelineLib_some_slots hrg]
    | none =>
      have hGnm : ∀ s ∈ (g.guidelines.getD []).map guidelineSlot, s.1 ≠ some k := by
        cases hgg : g.guidelines with
        | none => simp
        | some gs =>
          rw [hgg] at hG
          simp only [Option.some_bind] at hG
          simp only [Option.getD_some]
          intro s hs
          obtain ⟨x, hx0, rfl⟩ := List.mem_map.mp hs
          exact replaceFirstGuidelineLib_none hG x hx0
      cases hgo : g.outline with
      | none =>
        rw [applyObjectLib_eq_self_of_no_outline hA hG hgo]
        rw [updateFirst_of_no_match]
        intro s hs
        simp only [Glyph.libSlots, hgo, List.append_nil, List.mem_append] at hs
        rcases hs with h1 | h2
        · exact hAnm s h1
        · exact hGnm s h2
      | some o =>
        cases hc : replaceFirstContourLib fresh k v o.contours with
        | some cs =>
          rw [applyObjectLib_eq_contours hA hG hgo hc]
          simp only [Glyph.libSlots, hgo, Option.getD_some, List.append_assoc]
          rw [updateFirst_append_of_no_match _ hAnm,
            updateFirst_append_of_no_match _ hGnm,
            updateFirst_append_of_match _ (replaceFirstContourLib_some_match hc),
            replaceFirstContourLib_some_slots hc]
        | none =>
          have hCnm := replaceFirstContourLib_none hc
          cases hk : replaceFirstComponentLib fresh k v o.components with
          | some ks =>
            rw [applyObjectLib_eq_components hA hG hgo hc hk]
            simp only [Glyph.libSlots, hgo, Option.getD_some, List.append_assoc]
            rw [updateFirst_append_of_no_match _ hAnm,
              updateFirst_append_of_no_match _ hGnm,
              updateFirst_append_of_no_match _ hCnm,
              replaceFirstComponentLib_some_slots hk]
          | none =>
            rw [applyObjectLib_eq_self_of_outline hA hG hgo hc hk]
            rw [updateFirst_of_no_match]
            intro s hs
            simp only [Glyph.libSlots, hgo, List.mem_append] at hs
            rcases hs with ((h1 | h2) | h3 | h4)
            · exact hAnm s h1
            · exact hGnm s h2
            · exact hCnm s h3
            · obtain ⟨c, hc0, rfl⟩ := List.mem_map.mp h4
              exact replaceFirstComponentLib_none hk c hc0

/-- A redistribution step never touches the glyph's own lib. -/
theorem applyObjectLib_lib (fresh : Identifier) (k : String) (v : Plist)
    (g : Glyph) : (applyObjectLib fresh k v g).lib = g.lib := by
  unfold applyObjectLib
  repeat' split
  all_goals rfl

/-- A key that matches no sub-object leaves the glyph unchanged
(`continue 'next_key` without any write). -/
theorem applyObjectLib_eq_self_of_not_matches {fresh : Identifier} {k : String}
    {v : Plist} {g : Glyph} (h : ¬ GlyphMatches g k) :
    applyObjectLib fresh k v g = g := by
  have hA : g.anchors.bind (replaceFirstAnchorLib fresh k v) = none := by
    cases hga : g.anchors with
    | none => rfl
    | some as =>
      simp only [Option.some_bind]
      cases hra : replaceFirstAnchorLib fresh k v as with
      | none => rfl
      | some l =>
        exfalso
        apply h
        obtain ⟨s, hs, hsk⟩ := replaceFirstAnchorLib_some_match hra
        refine ⟨s, ?_, hsk⟩
        simp only [Glyph.libSlots, hga, Option.getD_some, List.mem_append]
        exact Or.inl (Or.inl hs)
  have hG : g.guidelines.bind (replaceFirstGuidelineLib fresh k v) = none := by
    cases hgg : g.guidelines with
    | none => rfl
    | some gs =>
      simp only [Option.some_bind]
      cases hrg : replaceFirstGuidelineLib fresh k v gs with
      | none => rfl
      | some l =>
        exfalso
        apply h
        obtain ⟨s, hs, hsk⟩ := replaceFirstGuidelineLib_some_match hrg
        refine ⟨s, ?_, hsk⟩
        simp only [Glyph.libSlots, hgg, Option.getD_some, List.mem_append]
        exact Or.inl (Or.inr hs)
  cases hgo : g.outline with
  | none => exact applyObjectLib_eq_self_of_no_outline hA hG hgo
  | some o =>
    have hc : replaceFirstContourLib fresh k v o.contours = none := by
      cases hc0 : replaceFirstContourLib fresh k v o.contours with
      | none => rfl
      | some cs =>
        exfalso
        apply h
        obtain ⟨s, hs, hsk⟩ := replaceFirstContourLib_some_match hc0
        refine ⟨s, ?_, hsk⟩
        simp only [Glyph.libSlots, hgo, List.mem_append]
        exact Or.inr (Or.inl hs)
    have hk : replaceFirstComponentLib fresh k v o.components = none := by
      cases hk0 : replaceFirstComponentLib fresh k v o.components with
      | none => rfl
      | some ks =>
        exfalso
        apply h
        obtain ⟨s, hs, hsk⟩ := replaceFirstComponentLib_some_match hk0
        refine ⟨s, ?_, hsk⟩
        simp only [Glyph.libSlots, hgo, List.mem_append]
        exact Or.inr (Or.inr hs)
    exact applyObjectLib_eq_self_of_outline hA hG hgo hc hk

/-- Redistribution steps never create a sub-object with a new
identifier: a key absent from the glyph stays absent. -/
theorem not_glyphMatches_applyObjectLib {g : Glyph} {k : String}
    (fresh : Identifier) (k' : String) (v : Plist)
    (h : ¬ GlyphMatches g k) : ¬ GlyphMatches (applyObjectLib fresh k' v g) k := by
  rintro ⟨s, hs, hsk⟩
  apply h
  have hfst : s.1 ∈ ((applyObjectLib fresh k' v g).libSlots.map Prod.fst) :=
    List.mem_map_of_mem Prod.fst hs
  rw [applyObjectLib_libSlots, updateFirst_map_fst] at hfst
  obtain ⟨t, ht, htk⟩ := List.mem_map.mp hfst
  exact ⟨t, ht, htk.trans hsk⟩

/-! ## `processEntries` lemmas -/

/-- The `'next_key` loop never touches the glyph's own lib. -/
theorem processEntries_lib {fresh : Identifier} {entries : List (String × Value)}
    {g g' : Glyph} (h : processEntries fresh entries g = Except.ok g') :
    g'.lib = g.lib := by
  induction entries generalizing g with
  | nil =>
    simp only [processEntries, Except.ok.injEq] at h
    subst h
    rfl
  | cons e rest ih =>
    obtain ⟨key, v⟩ := e
    simp only [processEntries] at h
    cases hv : v.into_dictionary with
    | none => rw [hv] at h; simp at h
    | some value =>
      rw [hv] at h
      rw [ih h, applyObjectLib_lib]

/-- When every entry value is a dictionary, the loop succeeds. -/
theorem processEntries_ok_of_dicts {fresh : Identifier}
    {entries : List (String × Value)} (g : Glyph)
    (hd : ∀ p ∈ entries, ∃ w, p.2 = Value.dict w) :
    ∃ g', processEntries fresh entries g = Except.ok g' := by
  induction entries generalizing g with
  | nil => exact ⟨g, rfl⟩
  | cons e rest ih =>
    obtain ⟨key, v⟩ := e
    obtain ⟨w, hw⟩ := hd (key, v) (by simp)
    simp only at hw
    subst hw
    simp only [processEntries, Value.into_dictionary]
    exact ih (applyObjectLib fresh key w g) fun p hp => hd p (by simp [hp])

/-- Entries whose key matches no sub-object contribute nothing: removing
them from the dictionary gives the same run. -/
theorem processEntries_drop_key {fresh : Identifier} {k : String}
    {entries : List (String × Value)} {g : Glyph}
    (hd : ∀ p ∈ entries, ∃ w, p.2 = Value.dict w)
    (hm : ¬ GlyphMatches g k) :
    processEntries fresh entries g
      = processEntries fresh (plistRemove entries k) g := by
  induction entries generalizing g with
  | nil => rfl
  | cons e rest ih =>
    obtain ⟨key, v⟩ := e
    obtain ⟨w, hw⟩ := hd (key, v) (by simp)
    simp only at hw
    subst hw
    by_cases hkey : key = k
    · subst hkey
      simp only [plistRemove, if_pos rfl]
      simp only [processEntries, Value.into_dictionary]
      rw [applyObjectLib_eq_self_of_not_matches hm]
      exact ih (fun p hp => hd p (by simp [hp])) hm
    · simp only [plistRemove, if_neg hkey]
      simp only [processEntries, Value.into_dictionary]
      exact ih (fun p hp => hd p (by simp [hp]))
        (not_glyphMatches_applyObjectLib fresh key w hm)

/-! ## Totality of the write-time collection -/

theorem collectAnchorLibs_isSome (l : List Anchor) (acc : Plist) :
    (collectAnchorLibs l acc).isSome
      = l.all fun a => !a.lib.isSome || a.identifier.isSome := by
  induction l generalizing acc with
  | nil => rfl
  | cons a rest ih =>
    cases hl : a.lib with
    | none => simp [collectAnchorLibs, hl, ih]
    | some lib =>
      cases hi : a.identifier with
      | none => simp [collectAnchorLibs, hl, hi, addLib]
      | some i => simp [collectAnchorLibs, hl, hi, addLib, ih]

theorem collectGuidelineLibs_isSome (l : List Guideline) (acc : Plist) :
    (collectGuidelineLibs l acc).isSome
      = l.all fun x => !x.lib.isSome || x.identifier.isSome := by
  induction l generalizing acc with
  | nil => rfl
  | cons x rest ih =>
    cases hl : x.lib with
    | none => simp [collectGuidelineLibs, hl, ih]
    | some lib =>
      cases hi : x.identifier with
      | none => simp [collectGuidelineLibs, hl, hi, addLib]
      | some i => simp [collectGuidelineLibs, hl, hi, addLib, ih]

theorem collectPointLibs_isSome (l : List ContourPoint) (acc : Plist) :
    (collectPointLibs l acc).isSome
      = l.all fun p => !p.lib.isSome || p.identifier.isSome := by
  induction l generalizing acc with
  | nil => rfl
  | cons p rest ih =>
    cases hl : p.lib with
    | none => simp [collectPointLibs, hl, ih]
    | some lib =>
      cases hi : p.identifier with
      | none => simp [collectPointLibs, hl, hi, addLib]
      | some i => simp [collectPointLibs, hl, hi, addLib, ih]

theorem collectComponentLibs_isSome (l : List Component) (acc : Plist) :
    (collectComponentLibs l acc).isSome
      = l.all fun c => !c.lib.isSome || c.identifier.isSome := by
  induction l generalizing acc with
  | nil => rfl
  | cons c rest ih =>
    cases hl : c.lib with
    | none => simp [collectComponentLibs, hl, ih]
    | some lib =>
      cases hi : c.identifier with
      | none => simp [collectComponentLibs, hl, hi, addLib]
      | some i => simp [collectComponentLibs, hl, hi, addLib, ih]

theorem collectContourLibs_isSome (l : List Contour) (acc : Plist) :
    (collectContourLibs l acc).isSome
      = l.all fun c => (!c.lib.isSome || c.identifier.isSome) &&
          (c.points.all fun p => !p.lib.isSome || p.identifier.isSome) := by
  induction l generalizing acc with
  | nil => rfl
  | cons c rest ih =>
    cases hl : c.lib with
    | none =>
      cases hp : collectPointLibs c.points acc with
      | none =>
        have hps := (collectPointLibs_isSome c.points acc).symm
        rw [hp, Option.isSome_none] at hps
        simp only [collectContourLibs, hl, hp, List.all_cons, hps, Option.isSome_none,
          Bool.not_false, Bool.true_or, Bool.true_and, Bool.and_false, Bool.false_and]
      | some acc2 =>
        have hps := (collectPointLibs_isSome c.points acc).symm
        rw [hp, Option.isSome_some] at hps
        simp only [collectContourLibs, hl, hp, List.all_cons, hps, Option.isSome_none,
          Bool.not_false, Bool.true_or, Bool.true_and, Bool.and_true]
        exact ih acc2
    | some lib =>
      cases hi : c.identifier with
      | none =>
        simp only [collectContourLibs, hl, hi, addLib, List.all_cons, Option.isSome_none,
          Option.isSome_some, Bool.not_true, Bool.false_or, Bool.false_and, Bool.and_false]
      | some i =>
        cases hp : collectPointLibs c.points (plistInsert acc i (Value.dict lib)) with
        | none =>
          have hps :=
            (collectPointLibs_isSome c.points (plistInsert acc i (Value.dict lib))).symm
          rw [hp, Option.isSome_none] at hps
          simp only [collectContourLibs, hl, hi, addLib, hp, List.all_cons, hps,
            Option.isSome_none, Option.isSome_some, Bool.not_true, Bool.false_or,
            Bool.true_and, Bool.and_false, Bool.false_and]
        | some acc2 =>
          have hps :=
            (collectPointLibs_isSome c.points (plistInsert acc i (Value.dict lib))).symm
          rw [hp, Option.isSome_some] at hps
          simp only [collectContourLibs, hl, hi, addLib, hp, List.all_cons, hps,
            Option.isSome_some, Bool.not_true, Bool.false_or, Bool.true_and, Bool.and_true]
          exact ih acc2

/-- `libs_to_object_libs` completes (does not hit the `unwrap` panic)
exactly when every lib-bearing sub-object has an identifier. -/
theorem libs_to_object_libs_isSome (g : Glyph) :
    (Glyph.libs_to_object_libs g).isSome = g.libsHaveIds := by
  unfold Glyph.libs_to_object_libs Glyph.libsHaveIds
  cases hA : collectAnchorLibs (g.anchors.getD []) [] with
  | none =>
    have h1 := (collectAnchorLibs_isSome (g.anchors.getD []) []).symm
    rw [hA, Option.isSome_none] at h1
    rw [h1]
    simp
  | some acc1 =>
    have h1 := (collectAnchorLibs_isSome (g.anchors.getD []) []).symm
    rw [hA, Option.isSome_some] at h1
    rw [h1, Option.some_bind]
    simp only [Bool.true_and]
    cases hG : collectGuidelineLibs (g.guidelines.getD []) acc1 with
    | none =>
      have h2 := (collectGuidelineLibs_isSome (g.guidelines.getD []) acc1).symm
      rw [hG, Option.isSome_none] at h2
      rw [h2]
      simp
    | some acc2 =>
      have h2 := (collectGuidelineLibs_isSome (g.guidelines.getD []) acc1).symm
      rw [hG, Option.isSome_some] at h2
      rw [h2, Option.some_bind]
      simp only [Bool.true_and]
      cases hgo : g.outline with
      | none => simp
      | some o =>
        simp only []
        cases hC : collectContourLibs o.contours acc2 with
        | none =>
          have h3 := (collectContourLibs_isSome o.contours acc2).symm
          rw [hC, Option.isSome_none] at h3
          rw [h3]
          simp
        | some acc3 =>
          have h3 := (collectContourLibs_isSome o.contours acc2).symm
          rw [hC, Option.isSome_some] at h3
          rw [h3, Option.some_bind]
          simp only [Bool.true_and]
          exact collectComponentLibs_isSome o.components acc3

/-! ## Claim theorems -/

/-- C1 (counterexample): collecting the object libs of a glyph with a
lib-bearing, identifier-less anchor does not complete: it hits the
`unwrap` panic (modelled as `none`) instead of synthesizing an
identifier — `libs_to_object_libs` borrows the glyph immutably and
cannot write anything back. -/
theorem collect_objectlibs_panics_without_identifier :
    Glyph.libs_to_object_libs gNoId = none := rfl

/-- C1 (amended): collecting the object libs for writing completes
without failure exactly when every sub-object that has a lib also has an
identifier; a sub-object with a lib but no identifier makes the
collection fail (the `unwrap` panic), and no identifier is ever
synthesized or written back by the collection. -/
theorem collect_objectlibs_total_iff_identified (g : Glyph) :
    (Glyph.libs_to_object_libs g).isSome = g.libsHaveIds :=
  libs_to_object_libs_isSome g

/-- C2 (counterexample): in `gOrder` the identifier `k` names both a
point of the first contour and the second contour itself, with one
`objectLibs` entry for `k`.  Under the claimed order (all contours
before all contour points) the second contour would receive the lib;
the code instead gives it to the first contour's point, and the contour
whose identifier is `k` gets nothing. -/
theorem fill_in_libs_order_counterexample :
    Glyph.fill_in_libs "w" gOrder = Except.ok gOrderAfter
  ∧ cMatch.identifier = some "k"
  ∧ (gOrderAfter.outline.map fun o => o.contours.map Contour.lib) = some [none, none]
  ∧ (gOrderAfter.outline.map fun o =>
        o.contours.map fun c => c.points.map ContourPoint.lib)
      = some [[some noteHi], []]
  ∧ ¬ ((gOrderAfter.outline.map fun o => o.contours.map Contour.lib)
        = some [none, some noteHi]) := by
  refine ⟨rfl, rfl, rfl, rfl, ?_⟩
  rw [show (gOrderAfter.outline.map fun o => o.contours.map Contour.lib)
        = some [none, none] from rfl]
  simp

/-- C2 (amended): load-time redistribution attaches each entry's value
to the first sub-object whose identifier equals the entry's id,
searching all anchors, then all guidelines, then the contours in order
with each contour immediately followed by its own points, then all
components (this is `updateFirst` over the traversal-ordered slot
list). -/
theorem fill_in_libs_first_match_in_traversal_order
    (fresh : Identifier) (k : String) (v : Plist) (g : Glyph) :
    processEntries fresh [(k, Value.dict v)] g
        = Except.ok (applyObjectLib fresh k v g)
  ∧ (applyObjectLib fresh k v g).libSlots = updateFirst k v g.libSlots :=
  ⟨rfl, applyObjectLib_libSlots fresh k v g⟩

/-- C3: for a glyph whose lib holds
`public.objectLibs = { "id-1": { "note": "hi" } }` and whose outline has
a contour with identifier `id-1`, redistribution succeeds, the contour's
lib becomes `{ "note": "hi" }`, and the glyph lib no longer contains
`public.objectLibs` (whatever identifier the UUID generator would
produce). -/
theorem objectlibs_redistribution_scenario_d (fresh : Identifier) :
    Glyph.fill_in_libs fresh gScenD = Except.ok gScenDAfter
  ∧ (gScenDAfter.outline.map fun o => o.contours.map Contour.lib) = some [some noteHi]
  ∧ (gScenDAfter.lib.map fun l => plistContainsKey l PUBLIC_OBJECT_LIBS_KEY)
      = some false :=
  ⟨rfl, rfl, rfl⟩

/-- C4: whenever `fill_in_libs` returns successfully, the resulting
glyph's lib (if present) no longer contains the `public.objectLibs`
key. -/
theorem fill_in_libs_removes_objectlibs_key
    (fresh : Identifier) (g g' : Glyph) (lib' : Plist)
    (h : Glyph.fill_in_libs fresh g = Except.ok g')
    (h2 : g'.lib = some lib') :
    plistContainsKey lib' PUBLIC_OBJECT_LIBS_KEY = false := by
  unfold Glyph.fill_in_libs at h
  cases hgl : g.lib with
  | none =>
    rw [hgl] at h
    simp only [Except.ok.injEq] at h
    subst h
    rw [hgl] at h2
    cases h2
  | some lib =>
    rw [hgl] at h
    simp only [] at h
    cases hget : plistGet lib PUBLIC_OBJECT_LIBS_KEY with
    | none =>
      rw [hget] at h
      simp only [Except.ok.injEq] at h
      subst h
      rw [hgl] at h2
      injection h2 with h2
      subst h2
      exact plistContainsKey_of_get_none hget
    | some v =>
      rw [hget] at h
      simp only [] at h
      cases hv : v.into_dictionary with
      | none => rw [hv] at h; simp at h
      | some d =>
        rw [hv] at h
        have hl := processEntries_lib h
        rw [h2] at hl
        injection hl with hl
        subst hl
        exact plistContainsKey_plistRemove lib PUBLIC_OBJECT_LIBS_KEY

/-- C4 (witness): instantiated on the scenario-*D* fixture. -/
theorem fill_in_libs_removes_objectlibs_key_witness :
    plistContainsKey [] PUBLIC_OBJECT_LIBS_KEY = false :=
  fill_in_libs_removes_objectlibs_key "w" gScenD gScenDAfter [] rfl rfl

/-- C5: `Glyph::save` refuses any glyph whose format is not V2 with the
downgrade error, and (the downgrade gate coming first) refuses a V2
glyph whose lib already contains `public.objectLibs` with the
`PreexistingPublicObjectLibsKey` error; both gates fire before the
serializer runs, for every serializer, so nothing is written — and
`save` borrows the glyph immutably, so the glyph is unchanged by
construction. -/
theorem save_error_gates (g : Glyph) (encode : Glyph → Except Error (List Nat)) :
    (g.format ≠ GlifVersion.V2 →
        Glyph.save encode g = Except.error Error.DowngradeUnsupported)
  ∧ (∀ lib, g.format = GlifVersion.V2 → g.lib = some lib →
      plistContainsKey lib PUBLIC_OBJECT_LIBS_KEY = true →
      Glyph.save encode g = Except.error Error.PreexistingPublicObjectLibsKey) := by
  constructor
  · intro h
    unfold Glyph.save
    rw [if_pos h]
  · intro lib hfmt hlib hkey
    unfold Glyph.save
    rw [if_neg (by simp [hfmt]), hlib]
    simp [hkey]

/-- C5 (witness): a V1 glyph is refused with the downgrade error; a V2
glyph with a preexisting `public.objectLibs` key is refused with the
dedicated error. -/
theorem save_error_gates_witness :
    Glyph.save encStub gV1 = Except.error Error.DowngradeUnsupported
  ∧ Glyph.save encStub gV2k = Except.error Error.PreexistingPublicObjectLibsKey :=
  ⟨(save_error_gates gV1 encStub).1 (by decide),
   (save_error_gates gV2k encStub).2 [(PUBLIC_OBJECT_LIBS_KEY, Value.dict [])]
     rfl rfl rfl⟩

/-- C6: the glyph filename function maps `A` to `A_.glif`, `.notdef` to
`_notdef.glif`, and `a*b` to `a_b.glif`. -/
theorem filename_escaping_examples :
    default_file_name_for_glyph_name "A" = "A_.glif"
  ∧ default_file_name_for_glyph_name ".notdef" = "_notdef.glif"
  ∧ default_file_name_for_glyph_name "a*b" = "a_b.glif" :=
  ⟨rfl, rfl, rfl⟩

/-- C7: for every glyph name the produced filename is at most 255 UTF-8
bytes, always ends in `.glif`, and the part before the suffix is a
whole-character cut of the escaped name (truncation happens at a
character boundary). -/
theorem filename_bounded_and_suffixed (name : String) :
    ∃ pre : List Char,
      (default_file_name_for_glyph_name name).data = pre ++ glifSuffix
      ∧ (∃ rest, escapeName name.data true = pre ++ rest)
      ∧ utf8Len (pre ++ glifSuffix) ≤ 255 := by
  unfold default_file_name_for_glyph_name fnImpl
  by_cases h : utf8Len (escapeName name.data true) + utf8Len glifSuffix > 255
  · refine ⟨takeBytes (escapeName name.data true) (255 - utf8Len glifSuffix),
      by rw [if_pos h], takeBytes_leading _ _, ?_⟩
    rw [utf8Len_append]
    have h1 := utf8Len_takeBytes_le (escapeName name.data true) (255 - utf8Len glifSuffix)
    have h2 : utf8Len glifSuffix = 5 := rfl
    omega
  · refine ⟨escapeName name.data true, by rw [if_neg h], ⟨[], by simp⟩, ?_⟩
    rw [utf8Len_append]
    omega

/-- C8: `replace_lib` sets the freshly drawn UUIDv4 identifier exactly
when the object had none (an existing identifier is kept), for every
sub-object kind; `take_lib` and `replace_identifier` never synthesize an
identifier; and load-time redistribution preserves every sub-object's
identifier, so no other operation synthesizes one. -/
theorem replace_lib_identifier_synthesis
    (fresh fresh2 : Identifier) (lib : Plist) (a : Anchor) (c : Contour)
    (p : ContourPoint) (co : Component) (gl : Guideline)
    (k : String) (v : Plist) (g : Glyph) (i : Identifier) :
    ((a.replace_lib fresh lib).1.identifier
        = if a.identifier = none then some fresh else a.identifier)
  ∧ ((c.replace_lib fresh lib).1.identifier
        = if c.identifier = none then some fresh else c.identifier)
  ∧ ((p.replace_lib fresh lib).1.identifier
        = if p.identifier = none then some fresh else p.identifier)
  ∧ ((co.replace_lib fresh lib).1.identifier
        = if co.identifier = none then some fresh else co.identifier)
  ∧ ((gl.replace_lib fresh lib).1.identifier
        = if gl.identifier = none then some fresh else gl.identifier)
  ∧ ((a.replace_lib fresh lib).1.lib = some lib)
  ∧ (a.take_lib.1.identifier = a.identifier)
  ∧ (c.take_lib.1.identifier = c.identifier)
  ∧ (p.take_lib.1.identifier = p.identifier)
  ∧ (co.take_lib.1.identifier = co.identifier)
  ∧ ((a.replace_identifier i).1.identifier = some i)
  ∧ ((applyObjectLib fresh2 k v g).libSlots.map Prod.fst
        = g.libSlots.map Prod.fst) := by
  refine ⟨?_, ?_, ?_, ?_, ?_, rfl, rfl, rfl, rfl, rfl, rfl, ?_⟩
  · cases ha : a.identifier <;> simp [Anchor.replace_lib, ha]
  · cases hc : c.identifier <;> simp [Contour.replace_lib, hc]
  · cases hp : p.identifier <;> simp [ContourPoint.replace_lib, hp]
  · cases hco : co.identifier <;> simp [Component.replace_lib, hco]
  · cases hgl : gl.identifier <;> simp [Guideline.replace_lib, hgl]
  · rw [applyObjectLib_libSlots, updateFirst_map_fst]

/-- C9: an `objectLibs` entry whose dictionary value's identifier
matches no sub-object causes no error: redistribution succeeds, and the
entry is dropped — removing it from the dictionary yields the very same
resulting glyph, and the glyph lib no longer contains
`public.objectLibs`. -/
theorem orphan_objectlib_entry_dropped
    (fresh : Identifier) (g : Glyph) (lib d v : Plist) (k : String)
    (hg : g.lib = some lib)
    (hd : plistGet lib PUBLIC_OBJECT_LIBS_KEY = some (Value.dict d))
    (_hmem : (k, Value.dict v) ∈ d)
    (hdicts : ∀ p ∈ d, ∃ w, p.2 = Value.dict w)
    (hmatch : ¬ GlyphMatches g k) :
    ∃ g', Glyph.fill_in_libs fresh g = Except.ok g'
      ∧ processEntries fresh (plistRemove d k)
          { g with lib := some (plistRemove lib PUBLIC_OBJECT_LIBS_KEY) }
          = Except.ok g'
      ∧ (g'.lib.map fun l => plistContainsKey l PUBLIC_OBJECT_LIBS_KEY)
          = some false := by
  have hfill : Glyph.fill_in_libs fresh g
      = processEntries fresh d
          { g with lib := some (plistRemove lib PUBLIC_OBJECT_LIBS_KEY) } := by
    unfold Glyph.fill_in_libs
    rw [hg]
    simp only [hd, Value.into_dictionary]
  have hm2 : ¬ GlyphMatches
      { g with lib := some (plistRemove lib PUBLIC_OBJECT_LIBS_KEY) } k := hmatch
  obtain ⟨g', hok⟩ := processEntries_ok_of_dicts _ hdicts
  refine ⟨g', hfill.trans hok, ?_, ?_⟩
  · rw [← processEntries_drop_key hdicts hm2]
    exact hok
  · have hl := processEntries_lib hok
    rw [hl]
    simp [plistContainsKey_plistRemove]

/-- C9 (witness): the fixture `gOrphan` carries the orphan entry
`("x", { "note": "hi" })` matching no sub-object. -/
theorem orphan_objectlib_entry_dropped_witness :
    ∃ g', Glyph.fill_in_libs "w" gOrphan = Except.ok g'
      ∧ processEntries "w" (plistRemove [("x", Value.dict noteHi)] "x")
          { gOrphan with
            lib := some (plistRemove
              [(PUBLIC_OBJECT_LIBS_KEY, Value.dict [("x", Value.dict noteHi)])]
              PUBLIC_OBJECT_LIBS_KEY) }
          = Except.ok g'
      ∧ (g'.lib.map fun l => plistContainsKey l PUBLIC_OBJECT_LIBS_KEY)
          = some false :=
  orphan_objectlib_entry_dropped "w" gOrphan
    [(PUBLIC_OBJECT_LIBS_KEY, Value.dict [("x", Value.dict noteHi)])]
    [("x", Value.dict noteHi)] noteHi "x" rfl rfl (by simp)
    (by
      rintro q hq
      simp only [List.mem_singleton] at hq
      subst hq
      exact ⟨noteHi, rfl⟩)
    (by
      rintro ⟨s, hs, hsk⟩
      rw [show gOrphan.libSlots = [(some "a1", none)] from rfl] at hs
      simp only [List.mem_singleton] at hs
      subst hs
      exact absurd hsk (by decide))

/-- C10: a contour with an empty point list is considered closed, for
every identifier and lib. -/
theorem contour_empty_points_is_closed
    (ident : Option Identifier) (lib : Option Plist) :
    (Contour.mk [] ident lib).is_closed = true := rfl

end Norad
